import Mathlib

/-!
Shallow embedding of the viewport-triggered animation readiness coordinator
(the second IIFE of the repository's animation script).  Promises are modelled
as one-shot futures that either settle at a discrete time with a success flag,
or never settle; DOM elements are finite trees carrying the attributes the
script reads (tag, class list, text, image/video readiness, computed font
style).  Event firings (image load/error, video loadeddata/error, font face
settlement) are part of the input: each carries the time at which it would
fire and whether it is the success or the error event.
-/

namespace Anim

/-- A one-shot future: `settles = some (t, true)` means it resolves at time
`t`, `some (t, false)` means it rejects at time `t`, `none` means it never
settles. -/
structure Future where
  settles : Option (Nat × Bool)
deriving DecidableEq, Repr

/-- Attributes of a DOM element that the script reads.  `ownText` stands for
the text-node children of the element; `imgEvent` / `videoEvent` give the
first load-or-error (resp. loadeddata-or-error) event the element would fire
(`true` = success event, `false` = error event), or `none` if neither ever
fires. -/
structure ElemInfo where
  tag : String
  classes : List String
  ownText : String
  imgComplete : Bool
  imgEvent : Option (Nat × Bool)
  videoReadyState : Nat
  videoPoster : String
  videoEvent : Option (Nat × Bool)
  fontFamily : String
  fontStyle : String
  fontWeight : String
deriving DecidableEq, Repr

/-- A DOM element: its attributes and its element children, in order. -/
inductive Elem where
  | node (info : ElemInfo) (children : List Elem)

def Elem.info : Elem → ElemInfo
  | .node i _ => i

def Elem.children : Elem → List Elem
  | .node _ cs => cs

mutual
/-- The element together with all of its descendants, in tree (pre-)order. -/
def Elem.subtree : Elem → List Elem
  | .node i cs => .node i cs :: subtreeList cs
def subtreeList : List Elem → List Elem
  | [] => []
  | c :: cs => c.subtree ++ subtreeList cs
end

/-- All proper descendants of an element, in tree order. -/
def Elem.descendants (e : Elem) : List Elem := subtreeList e.children

/-- `element.getElementsByTagName(t)`: the descendants with tag `t`, in tree
order (the element itself is excluded, as in the DOM). -/
def getElementsByTagName (e : Elem) (t : String) : List Elem :=
  e.descendants.filter (fun c => c.info.tag == t)

/-- `element.textContent`: the concatenated text of the element's subtree. -/
def Elem.textContent (e : Elem) : String :=
  String.join (e.subtree.map (fun c => c.info.ownText))

/-- `element.classList.contains("animated")`. -/
def isAnimated (e : Elem) : Bool := e.info.classes.contains "animated"

/-- `String.prototype.trim`: drop whitespace from both ends. -/
def jsTrim (s : String) : String :=
  ⟨((s.data.dropWhile Char.isWhitespace).reverse.dropWhile Char.isWhitespace).reverse⟩

/-- `hasTextContent` from the source: the flattened text, trimmed, has
non-zero length.  (The JS null/undefined guards cannot fire for an element's
`textContent`, which is always a string; the model keeps the length test.) -/
def hasTextContent (e : Elem) : Bool :=
  (jsTrim e.textContent).length != 0

/-- `hasDependencies` from the source: text content, or at least one `img`
descendant, or at least one `video` descendant. -/
def hasDependencies (e : Elem) : Bool :=
  hasTextContent e
    || decide (0 < (getElementsByTagName e "img").length)
    || decide (0 < (getElementsByTagName e "video").length)

/-- The rejection time of a future, if it rejects. -/
def rejTime (f : Future) : Option Nat :=
  match f.settles with
  | some (t, false) => some t
  | _ => none

/-- Minimum of a list of times, `none` on the empty list. -/
def minNat : List Nat → Option Nat
  | [] => none
  | t :: ts =>
    match minNat ts with
    | none => some t
    | some m => some (min t m)

/-- Maximum of a list of times, `0` on the empty list. -/
def maxNat (l : List Nat) : Nat := l.foldl max 0

/-- `Promise.all`: rejects at the time of the earliest member rejection as
soon as that rejection occurs; if no member rejects, it resolves once every
member has resolved (at the latest member resolution time, `0` for the empty
list); if no member rejects and some member never settles, it never
settles. -/
def joinAll (fs : List Future) : Future :=
  match minNat (fs.filterMap rejTime) with
  | some t => ⟨some (t, false)⟩
  | none =>
    if fs.all (fun f => f.settles.isSome) then
      ⟨some (maxNat (fs.filterMap (fun f => f.settles.map Prod.fst)), true)⟩
    else ⟨none⟩

/-- A web font face as enumerated from `document.fonts`: its key fields and
its own `loaded` readiness future. -/
structure FontFace where
  family : String
  style : String
  weight : String
  loaded : Future
deriving DecidableEq, Repr

/-- The host environment the script reads: the enumerable set of font faces
(`document.fonts`) and the process-wide `document.fonts.ready` future. -/
structure Env where
  fonts : List FontFace
  fontsReady : Future

/-- The result of `loadImage`: its promise, plus whether the call set
`loading = "eager"` and registered load/error listeners. -/
structure ImageWait where
  future : Future
  markedEager : Bool
  registeredListeners : Bool
deriving DecidableEq, Repr

/-- `loadImage`: resolve immediately if `image.complete`; otherwise set
`loading = "eager"`, register load and error listeners, and settle with the
first load (resolve) or error (reject) event. -/
def loadImage (img : ElemInfo) : ImageWait :=
  if img.imgComplete then
    ⟨⟨some (0, true)⟩, false, false⟩
  else
    ⟨⟨img.imgEvent⟩, true, true⟩

/-- The result of `loadVideo`: its promise, plus whether the call registered
loadeddata/error listeners. -/
structure VideoWait where
  future : Future
  registeredListeners : Bool
deriving DecidableEq, Repr

/-- `loadVideo`: resolve immediately if `video.readyState >= 2` or the video
has a (non-empty, i.e. truthy) poster; otherwise register listeners and
settle with the first loadeddata (resolve) or error (reject) event. -/
def loadVideo (v : ElemInfo) : VideoWait :=
  if decide (2 ≤ v.videoReadyState) || decide (v.videoPoster ≠ "") then
    ⟨⟨some (0, true)⟩, false⟩
  else
    ⟨⟨v.videoEvent⟩, true⟩

/-- The `family_style_weight` key the script builds for a font face. -/
def faceKey (f : FontFace) : String :=
  f.family ++ "_" ++ f.style ++ "_" ++ f.weight

/-- The `family_style_weight` key for a span's computed style. -/
def fontKeyOf (i : ElemInfo) : String :=
  i.fontFamily ++ "_" ++ i.fontStyle ++ "_" ++ i.fontWeight

/-- `Map.prototype.set` as observed through `get`: the new entry shadows any
earlier entry with the same key. -/
def mapSet (m : List (String × FontFace)) (k : String) (v : FontFace) :
    List (String × FontFace) :=
  (k, v) :: m

/-- `Map.prototype.get`: the most recently set value for the key (the first
match in the shadow list). -/
def mapGet : List (String × FontFace) → String → Option FontFace
  | [], _ => none
  | (k', v) :: m, k => if k' == k then some v else mapGet m k

/-- The `loadedFonts` snapshot map: `document.fonts.forEach` inserting each
face under its key (a later face with the same key overwrites an earlier
one). -/
def buildLoadedFonts (fonts : List FontFace) : List (String × FontFace) :=
  fonts.foldl (fun m f => mapSet m (faceKey f) f) []

/-- `loadFonts`: compute the span's font key, look it up in the snapshot map;
if found return that face's own `loaded` future (`font?.loaded` is then a
promise, hence truthy), otherwise fall back to `document.fonts.ready`. -/
def loadFonts (span : ElemInfo) (loadedFontsMap : List (String × FontFace))
    (fontsReady : Future) : Future :=
  match mapGet loadedFontsMap (fontKeyOf span) with
  | some f => f.loaded
  | none => fontsReady

/-- The ordered Join Set `loadElementResources` builds for an element: one
image wait per `img` descendant, then one video wait per `video` descendant,
then one font wait per `span` descendant, the font waits sharing the one
`loadedFonts` snapshot taken for the pass. -/
def elementWaits (env : Env) (e : Elem) : List Future :=
  (getElementsByTagName e "img").map (fun i => (loadImage i.info).future)
    ++ (getElementsByTagName e "video").map (fun v => (loadVideo v.info).future)
    ++ (getElementsByTagName e "span").map
        (fun s => loadFonts s.info (buildLoadedFonts env.fonts) env.fontsReady)

/-- `loadElementResources`: `Promise.all` over the element's Join Set. -/
def loadElementResources (env : Env) (e : Elem) : Future :=
  joinAll (elementWaits env e)

/-- Outcome of one `startAnimationForElement` call: either the element at
`path` (child indices from the dispatched element; `[]` is the element
itself) has its `animationPlayState` flipped to "running" at time `t` (the
flip itself being scheduled on the next animation frame), or nothing ever
runs — because the awaited Join Set rejected at time `t` (`failed`), never
settled (`stuck`), or the recursion bottomed out (`noop`). -/
inductive RunOutcome where
  | runs (path : List Nat) (t : Nat)
  | failed (t : Nat)
  | stuck
  | noop
deriving DecidableEq, Repr

/-- `startAnimationForElement`: if the element is tagged "animated" and
`hasDependencies` holds, await the Join Set and only on its resolution flip
the state to running; if tagged "animated" without dependencies, flip
immediately; otherwise recurse into the first element child if any. -/
def startAnimationForElement (env : Env) : Elem → RunOutcome
  | .node i cs =>
    if isAnimated (.node i cs) then
      if hasDependencies (.node i cs) then
        match (loadElementResources env (.node i cs)).settles with
        | some (t, true) => .runs [] t
        | some (t, false) => .failed t
        | none => .stuck
      else
        .runs [] 0
    else
      match cs with
      | [] => .noop
      | c :: _ =>
        match startAnimationForElement env c with
        | .runs p t => .runs (0 :: p) t
        | r => r

/-- The configuration `observeAndAnimate` gives the IntersectionObserver it
creates: the visibility threshold and the observed containers (identified by
opaque handles). -/
structure ObserverConfig where
  threshold : ℚ
  containers : List Nat
deriving DecidableEq, Repr

/-- `observeAndAnimate` setup: with zero matching containers, return without
creating an observer; otherwise create one observer with threshold `0.01`
observing every container. -/
def observeAndAnimate (containers : List Nat) : Option ObserverConfig :=
  if containers.isEmpty then none
  else some ⟨1 / 100, containers⟩

/-- Observer state: the containers still observed, and the log of containers
handed to `startAnimationForElement` so far. -/
structure ObsState where
  observed : List Nat
  dispatched : List Nat
deriving DecidableEq, Repr

/-- One intersection entry `(target, isIntersecting)` processed by the
observer callback, exactly as in the source: a non-intersecting entry is
skipped; an intersecting one dispatches the target and immediately
unobserves it.  The callback itself performs no other check. -/
def processEntry (s : ObsState) (entry : Nat × Bool) : ObsState :=
  if entry.2 then
    ⟨s.observed.erase entry.1, s.dispatched ++ [entry.1]⟩
  else
    s

/-- Process a whole trace of intersection entries, in delivery order. -/
def processEntries (s : ObsState) (entries : List (Nat × Bool)) : ObsState :=
  entries.foldl processEntry s

/-- A delivery trace in which every intersecting entry targets a container
that is still observed when the entry is processed.  `unobserve` stops
future deliveries but does not purge records already queued for the same
callback batch, so this is an assumption on the host's delivery, not a
property of the code. -/
def admissibleFrom (s : ObsState) : List (Nat × Bool) → Bool
  | [] => true
  | en :: ens =>
    (!en.2 || s.observed.contains en.1) && admissibleFrom (processEntry s en) ens

mutual
def decEqElem : (a b : Elem) → Decidable (a = b)
  | .node i cs, .node j ds =>
    match decEq i j, decEqElems cs ds with
    | isTrue h1, isTrue h2 => isTrue (by rw [h1, h2])
    | isFalse h1, _ => isFalse (fun h => by cases h; exact h1 rfl)
    | isTrue _, isFalse h2 => isFalse (fun h => by cases h; exact h2 rfl)
def decEqElems : (as bs : List Elem) → Decidable (as = bs)
  | [], [] => isTrue rfl
  | [], _ :: _ => isFalse (by simp)
  | _ :: _, [] => isFalse (by simp)
  | a :: as, b :: bs =>
    match decEqElem a b, decEqElems as bs with
    | isTrue h1, isTrue h2 => isTrue (by rw [h1, h2])
    | isFalse h1, _ => isFalse (fun h => by cases h; exact h1 rfl)
    | isTrue _, isFalse h2 => isFalse (fun h => by cases h; exact h2 rfl)
end

instance : DecidableEq Elem := decEqElem

/-- The last font face in the list whose key matches `k`, if any: the value a
key-to-face map built by iterating the list with overwriting inserts holds
for `k`. -/
def lastMatch : List FontFace → String → Option FontFace
  | [], _ => none
  | f :: fs, k =>
    match lastMatch fs k with
    | some g => some g
    | none => if faceKey f == k then some f else none

/-! Concrete elements and environments used as evaluation inputs by the
witness and counterexample theorems below. -/

/-- An element with only the attributes every element has; media and font
attributes are at their inert defaults. -/
def plainInfo (tag : String) (classes : List String) (text : String) : ElemInfo :=
  ⟨tag, classes, text, false, none, 0, "", none, "", "", ""⟩

def envEmpty : Env := ⟨[], ⟨none⟩⟩

/-- An animated div whose only dependency is its own text. -/
def exTextOnly : Elem := .node (plainInfo "div" ["animated"] "hello") []

def imgCompleteInfo : ElemInfo := ⟨"img", [], "", true, none, 0, "", none, "", "", ""⟩

/-- An animated div containing one already-complete image. -/
def exImgReady : Elem := .node (plainInfo "div" ["animated"] "") [.node imgCompleteInfo []]

def imgErrorInfo : ElemInfo := ⟨"img", [], "", false, some (0, false), 0, "", none, "", "", ""⟩

def imgPendingInfo : ElemInfo := ⟨"img", [], "", false, none, 0, "", none, "", "", ""⟩

/-- An animated div with one image that fires its error event at time 0 and
one image that never fires load or error. -/
def exImgFailAndPending : Elem :=
  .node (plainInfo "div" ["animated"] "")
    [.node imgErrorInfo [], .node imgPendingInfo []]

def videoReadyInfo : ElemInfo := ⟨"video", [], "", false, none, 2, "", none, "", "", ""⟩

def videoPendingInfo : ElemInfo := ⟨"video", [], "", false, none, 0, "", some (4, true), "", "", ""⟩

/-- A font face whose own readiness future rejects at time 3. -/
def arialFace : FontFace := ⟨"Arial", "normal", "400", ⟨some (3, false)⟩⟩

def spanArialInfo : ElemInfo := ⟨"span", [], "x", false, none, 0, "", none, "Arial", "normal", "400"⟩

/-- An animated div containing one span whose computed font key is the key of
`arialFace`. -/
def exSpanArial : Elem := .node (plainInfo "div" ["animated"] "") [.node spanArialInfo []]

/-- Environment whose font set holds the failing `arialFace` and whose
`document.fonts.ready` future resolves at time 9. -/
def envArialFail : Env := ⟨[arialFace], ⟨some (9, true)⟩⟩

/-! Helper lemmas about the time combinators and `joinAll`. -/

theorem minNat_eq_none {l : List Nat} : minNat l = none ↔ l = [] := by
  cases l with
  | nil => simp [minNat]
  | cons t ts =>
    simp only [minNat]
    cases minNat ts <;> simp

theorem minNat_mem {l : List Nat} {m : Nat} (h : minNat l = some m) : m ∈ l := by
  induction l generalizing m with
  | nil => simp [minNat] at h
  | cons t ts ih =>
    simp only [minNat] at h
    cases hts : minNat ts with
    | none =>
      rw [hts] at h
      simp at h
      subst h
      exact List.mem_cons_self t ts
    | some m' =>
      rw [hts] at h
      simp at h
      subst h
      rcases le_total t m' with hle | hle
      · rw [min_eq_left hle]
        exact List.mem_cons_self t ts
      · rw [min_eq_right hle]
        exact List.mem_cons_of_mem t (ih hts)

theorem minNat_le {l : List Nat} {m : Nat} (h : minNat l = some m) :
    ∀ x ∈ l, m ≤ x := by
  induction l generalizing m with
  | nil => simp
  | cons t ts ih =>
    intro x hx
    simp only [minNat] at h
    cases hts : minNat ts with
    | none =>
      rw [hts] at h
      simp at h
      subst h
      have hnil : ts = [] := minNat_eq_none.mp hts
      subst hnil
      simp at hx
      subst hx
      exact le_refl x
    | some m' =>
      rw [hts] at h
      simp at h
      subst h
      rcases List.mem_cons.mp hx with rfl | hx'
      · exact min_le_left _ _
      · exact le_trans (min_le_right _ _) (ih hts x hx')

theorem init_le_foldl_max (l : List Nat) (a : Nat) : a ≤ l.foldl max a := by
  induction l generalizing a with
  | nil => simp
  | cons t ts ih => exact le_trans (le_max_left a t) (ih (max a t))

theorem mem_le_foldl_max {l : List Nat} {x : Nat} (hx : x ∈ l) :
    ∀ a, x ≤ l.foldl max a := by
  induction l with
  | nil => simp at hx
  | cons t ts ih =>
    intro a
    rcases List.mem_cons.mp hx with rfl | hx'
    · exact le_trans (le_max_right a x) (init_le_foldl_max ts (max a x))
    · exact ih hx' (max a t)

theorem mem_le_maxNat {l : List Nat} {x : Nat} (hx : x ∈ l) : x ≤ maxNat l :=
  mem_le_foldl_max hx 0

theorem rejTime_eq_some {f : Future} {m : Nat} (h : rejTime f = some m) :
    f.settles = some (m, false) := by
  unfold rejTime at h
  split at h
  · rename_i t' heq
    simp at h
    subst h
    exact heq
  · simp at h

theorem rejTime_of_settles {f : Future} {m : Nat}
    (h : f.settles = some (m, false)) : rejTime f = some m := by
  simp [rejTime, h]

/-- A resolving `joinAll` means every member resolved, no later than the
aggregate. -/
theorem joinAll_resolves {fs : List Future} {t : Nat}
    (h : (joinAll fs).settles = some (t, true)) :
    ∀ f ∈ fs, ∃ tf, tf ≤ t ∧ f.settles = some (tf, true) := by
  intro f hf
  unfold joinAll at h
  split at h
  · simp at h
  · rename_i hmin
    split at h
    · rename_i hall
      have hmax : maxNat (fs.filterMap (fun f => f.settles.map Prod.fst)) = t := by
        simpa using h
      have hs := List.all_eq_true.mp hall f hf
      cases hsf : f.settles with
      | none =>
        rw [hsf] at hs
        simp at hs
      | some p =>
        obtain ⟨tf, b⟩ := p
        cases b with
        | false =>
          exfalso
          have hmem : tf ∈ fs.filterMap rejTime :=
            List.mem_filterMap.mpr ⟨f, hf, rejTime_of_settles hsf⟩
          rw [minNat_eq_none.mp hmin] at hmem
          simp at hmem
        | true =>
          refine ⟨tf, ?_, rfl⟩
          have hmem : tf ∈ fs.filterMap (fun f => f.settles.map Prod.fst) :=
            List.mem_filterMap.mpr ⟨f, hf, by rw [hsf]; rfl⟩
          calc tf ≤ maxNat (fs.filterMap (fun f => f.settles.map Prod.fst)) :=
                mem_le_maxNat hmem
            _ = t := hmax
    · simp at h

/-- A rejecting `joinAll` exhibits a member that rejected at exactly the
aggregate's rejection time. -/
theorem joinAll_rejected_mem {fs : List Future} {t : Nat}
    (h : (joinAll fs).settles = some (t, false)) :
    ∃ f ∈ fs, f.settles = some (t, false) := by
  unfold joinAll at h
  split at h
  · rename_i m hmin
    simp at h
    subst h
    obtain ⟨f, hf, hrt⟩ := List.mem_filterMap.mp (minNat_mem hmin)
    exact ⟨f, hf, rejTime_eq_some hrt⟩
  · rename_i hmin
    split at h
    · simp at h
    · simp at h

/-- A rejecting `joinAll` rejects no later than any rejecting member. -/
theorem joinAll_rejects_first {fs : List Future} {t : Nat}
    (h : (joinAll fs).settles = some (t, false)) :
    ∀ f ∈ fs, ∀ tf, f.settles = some (tf, false) → t ≤ tf := by
  intro f hf tf hrej
  unfold joinAll at h
  split at h
  · rename_i m hmin
    simp at h
    subst h
    exact minNat_le hmin tf
      (List.mem_filterMap.mpr ⟨f, hf, rejTime_of_settles hrej⟩)
  · rename_i hmin
    split at h
    · simp at h
    · simp at h

/-- A rejecting member forces `joinAll` to reject, no later than that
member. -/
theorem joinAll_rejects_of_mem {fs : List Future} {f : Future} {tf : Nat}
    (hf : f ∈ fs) (hrej : f.settles = some (tf, false)) :
    ∃ t, t ≤ tf ∧ (joinAll fs).settles = some (t, false) := by
  have hmem : tf ∈ fs.filterMap rejTime :=
    List.mem_filterMap.mpr ⟨f, hf, rejTime_of_settles hrej⟩
  cases hmin : minNat (fs.filterMap rejTime) with
  | none =>
    rw [minNat_eq_none.mp hmin] at hmem
    simp at hmem
  | some m =>
    refine ⟨m, minNat_le hmin tf hmem, ?_⟩
    unfold joinAll
    rw [hmin]

/-- On an element tagged "animated" with dependencies, the dispatcher's
outcome is decided by the settlement of the element's aggregate resource
future. -/
theorem dispatch_of_deps (env : Env) (e : Elem)
    (h1 : isAnimated e = true) (h2 : hasDependencies e = true) :
    startAnimationForElement env e =
      match (loadElementResources env e).settles with
      | some (t, true) => .runs [] t
      | some (t, false) => .failed t
      | none => .stuck := by
  cases e with
  | node i cs =>
    cases cs with
    | nil =>
      rw [startAnimationForElement.eq_1, h1, h2]
      simp
    | cons c cs2 =>
      rw [startAnimationForElement.eq_2, h1, h2]
      simp

/-- A rejecting member of the Join Set leaves the dispatcher in the `failed`
state: the element never transitions to running. -/
theorem dispatch_blocked_of_reject (env : Env) (e : Elem) (f : Future) (t : Nat)
    (h1 : isAnimated e = true) (h2 : hasDependencies e = true)
    (hf : f ∈ elementWaits env e) (hrej : f.settles = some (t, false)) :
    (∃ tr, tr ≤ t ∧ startAnimationForElement env e = .failed tr) ∧
      ∀ p t', startAnimationForElement env e ≠ .runs p t' := by
  obtain ⟨tr, htr, hjoin⟩ := joinAll_rejects_of_mem hf hrej
  have hj : (loadElementResources env e).settles = some (tr, false) := hjoin
  have hstart : startAnimationForElement env e = .failed tr := by
    rw [dispatch_of_deps env e h1 h2, hj]
  refine ⟨⟨tr, htr, hstart⟩, fun p t' hcon => ?_⟩
  rw [hstart] at hcon
  exact RunOutcome.noConfusion hcon

/-- C1: for every element tagged "animated" for which `hasDependencies`
holds, if the dispatcher transitions an element to "running" it is the
element itself (not a descendant), the transition happens exactly when the
Join Set's aggregate future resolves, and by then every member resource wait
has settled successfully (resolved, no later than the transition time). -/
theorem C1_dispatch_awaits_join (env : Env) (e : Elem) (p : List Nat) (t : Nat)
    (h1 : isAnimated e = true) (h2 : hasDependencies e = true)
    (h3 : startAnimationForElement env e = .runs p t) :
    p = [] ∧ (loadElementResources env e).settles = some (t, true) ∧
      ∀ f ∈ elementWaits env e, ∃ tf, tf ≤ t ∧ f.settles = some (tf, true) := by
  rw [dispatch_of_deps env e h1 h2] at h3
  cases hres : (loadElementResources env e).settles with
  | none =>
    rw [hres] at h3
    simp at h3
  | some pr =>
    obtain ⟨t', b⟩ := pr
    cases b with
    | false =>
      rw [hres] at h3
      simp at h3
    | true =>
      rw [hres] at h3
      simp at h3
      obtain ⟨hp, ht⟩ := h3
      subst hp
      subst ht
      exact ⟨rfl, rfl, joinAll_resolves hres⟩

theorem C1_dispatch_awaits_join_witness :
    ([] : List Nat) = [] ∧
      (loadElementResources envEmpty exImgReady).settles = some (0, true) ∧
      ∀ f ∈ elementWaits envEmpty exImgReady, ∃ tf, tf ≤ 0 ∧ f.settles = some (tf, true) :=
  C1_dispatch_awaits_join envEmpty exImgReady [] 0 (by decide) (by decide) (by decide)

/-- C2 counterexample: on an animated container holding one image that fires
its error event at time 0 and one image that never fires load or error, the
aggregate future of `loadElementResources` completes (rejects, at time 0)
even though one member wait never resolves nor rejects — so the aggregate
does not wait for every member to settle. -/
theorem C2_join_counterexample :
    (loadElementResources envEmpty exImgFailAndPending).settles = some (0, false) ∧
      ∃ f ∈ elementWaits envEmpty exImgFailAndPending, f.settles = none := by
  decide

/-- C2 (amended): the aggregate future of `loadElementResources` resolves
only after every member wait has resolved; it rejects exactly when some
member rejects — at the earliest member rejection, possibly before the
remaining members settle. -/
theorem C2_join_amended (env : Env) (e : Elem) :
    (∀ t, (loadElementResources env e).settles = some (t, true) →
        ∀ f ∈ elementWaits env e, ∃ tf, tf ≤ t ∧ f.settles = some (tf, true)) ∧
    (∀ t, (loadElementResources env e).settles = some (t, false) →
        ∃ f ∈ elementWaits env e, f.settles = some (t, false)) ∧
    (∀ f ∈ elementWaits env e, ∀ t, f.settles = some (t, false) →
        ∃ tr, tr ≤ t ∧ (loadElementResources env e).settles = some (tr, false)) := by
  refine ⟨?_, ?_, ?_⟩
  · intro t h
    exact joinAll_resolves h
  · intro t h
    exact joinAll_rejected_mem h
  · intro f hf t hrej
    exact joinAll_rejects_of_mem hf hrej

theorem C2_join_amended_witness :
    ∃ tr, tr ≤ 0 ∧
      (loadElementResources envEmpty exImgFailAndPending).settles = some (tr, false) :=
  (C2_join_amended envEmpty exImgFailAndPending).2.2 ⟨some (0, false)⟩ (by decide) 0 rfl

/-- C3: an animated container with dependencies one of whose resource waits
rejects ends in the dispatcher's terminal `failed` state — it is never
transitioned to "running" (and the model has no retry transition out of
`failed`). -/
theorem C3_failure_never_runs (env : Env) (e : Elem) (f : Future) (t : Nat)
    (h1 : isAnimated e = true) (h2 : hasDependencies e = true)
    (hf : f ∈ elementWaits env e) (hrej : f.settles = some (t, false)) :
    (∃ tr, tr ≤ t ∧ startAnimationForElement env e = .failed tr) ∧
      ∀ p t', startAnimationForElement env e ≠ .runs p t' :=
  dispatch_blocked_of_reject env e f t h1 h2 hf hrej

theorem C3_failure_never_runs_witness :
    (∃ tr, tr ≤ 0 ∧
        startAnimationForElement envEmpty exImgFailAndPending = .failed tr) ∧
      ∀ p t', startAnimationForElement envEmpty exImgFailAndPending ≠ .runs p t' :=
  C3_failure_never_runs envEmpty exImgFailAndPending ⟨some (0, false)⟩ 0
    (by decide) (by decide) (by decide) rfl

/-- C4 counterexample: the observer callback performs no membership check of
its own, and `unobserve` does not purge records already queued for the same
batch — so a delivered batch holding two intersecting records for the one
observed container invokes the dispatcher twice for it, refuting "the
observer invokes the Animation Dispatcher at most once" as stated. -/
theorem C4_double_dispatch_counterexample :
    observeAndAnimate [1] = some ⟨1 / 100, [1]⟩ ∧
    (processEntries ⟨[1], []⟩ [(1, true), (1, true)]).dispatched = [1, 1] ∧
    ¬ (processEntries ⟨[1], []⟩ [(1, true), (1, true)]).dispatched.count 1 ≤ 1 :=
  ⟨rfl, by decide, by decide⟩

/-- An entry whose intersecting target is still observed can only move that
container from the observed set to the dispatch log, so the combined
occurrence count never grows. -/
theorem count_processEntry (s : ObsState) (en : Nat × Bool) (c : Nat)
    (hadm : en.2 = true → en.1 ∈ s.observed) :
    (processEntry s en).dispatched.count c + (processEntry s en).observed.count c ≤
      s.dispatched.count c + s.observed.count c := by
  unfold processEntry
  split
  · rename_i hcond
    have hmem : en.1 ∈ s.observed := hadm hcond
    show (s.dispatched ++ [en.1]).count c + (s.observed.erase en.1).count c ≤ _
    rw [List.count_append]
    by_cases hc : en.1 = c
    · subst hc
      rw [List.count_erase_self]
      have hpos : 0 < s.observed.count en.1 := List.count_pos_iff.mpr hmem
      rw [List.count_singleton]
      simp only [beq_self_eq_true, if_true]
      omega
    · rw [List.count_erase_of_ne (fun h => hc h.symm)]
      rw [List.count_singleton]
      have : (en.1 == c) = false := by
        simpa using hc
      rw [this]
      simp
  · exact le_refl _

/-- Over an admissible trace of intersection entries, the combined
occurrence count of a container in the dispatch log and the observed set
never grows. -/
theorem count_processEntries (entries : List (Nat × Bool)) (s : ObsState) (c : Nat)
    (hadm : admissibleFrom s entries = true) :
    (processEntries s entries).dispatched.count c +
        (processEntries s entries).observed.count c ≤
      s.dispatched.count c + s.observed.count c := by
  induction entries generalizing s with
  | nil => exact le_refl _
  | cons en ens ih =>
    unfold admissibleFrom at hadm
    obtain ⟨hg, hrest⟩ := (Bool.and_eq_true _ _).mp hadm
    have hguard : en.2 = true → en.1 ∈ s.observed := by
      intro h2
      rw [h2] at hg
      simpa using hg
    exact le_trans (ih (processEntry s en) hrest) (count_processEntry s en c hguard)

/-- C4 (amended): with zero matching containers `observeAndAnimate` creates
no observer; otherwise it creates one observer shared by all containers
with threshold 1% (1/100).  Each intersecting delivery dispatches its
target and immediately unobserves it, and under the host-delivery
assumption that intersecting entries target only still-observed containers
(unobserve stops future deliveries but not records already queued in the
same batch) each container is handed to the dispatcher at most once — in
particular a container that exits and re-enters the viewport after its
first notification is never re-triggered. -/
theorem C4_observer_one_shot (containers : List Nat) (entries : List (Nat × Bool))
    (c : Nat) (hnd : containers.Nodup)
    (hadm : admissibleFrom ⟨containers, []⟩ entries = true) :
    (containers = [] → observeAndAnimate containers = none) ∧
    (containers ≠ [] → observeAndAnimate containers = some ⟨1 / 100, containers⟩) ∧
    (processEntries ⟨containers, []⟩ entries).dispatched.count c ≤ 1 := by
  refine ⟨?_, ?_, ?_⟩
  · intro h
    simp [observeAndAnimate, h]
  · intro h
    simp [observeAndAnimate, h]
  · have h1 : (processEntries ⟨containers, []⟩ entries).dispatched.count c +
        (processEntries ⟨containers, []⟩ entries).observed.count c ≤
          ([] : List Nat).count c + containers.count c :=
      count_processEntries entries ⟨containers, []⟩ c hadm
    rw [List.count_nil] at h1
    have h2 : containers.count c ≤ 1 := List.nodup_iff_count_le_one.mp hnd c
    omega

theorem C4_observer_one_shot_witness :
    (processEntries ⟨[5, 7], []⟩
        [(5, true), (7, false), (7, true)]).dispatched.count 5 ≤ 1 :=
  (C4_observer_one_shot [5, 7] [(5, true), (7, false), (7, true)] 5
    (by decide) (by decide)).2.2

/-- C5: `loadImage` on an already-complete image yields an immediately
resolved wait with no eager marking and no listener registration; on a
not-yet-complete image it marks the image eager, registers listeners, and
its future settles with the image's first load/error event — resolving on
load, rejecting on error. -/
theorem C5_image_wait (img : ElemInfo) :
    (img.imgComplete = true → loadImage img = ⟨⟨some (0, true)⟩, false, false⟩) ∧
    (img.imgComplete = false →
      (loadImage img).markedEager = true ∧
      (loadImage img).registeredListeners = true ∧
      (loadImage img).future.settles = img.imgEvent ∧
      (∀ t, img.imgEvent = some (t, true) →
        (loadImage img).future.settles = some (t, true)) ∧
      (∀ t, img.imgEvent = some (t, false) →
        (loadImage img).future.settles = some (t, false))) := by
  constructor
  · intro h
    simp [loadImage, h]
  · intro h
    simp [loadImage, h]

theorem C5_image_wait_witness :
    loadImage imgCompleteInfo = ⟨⟨some (0, true)⟩, false, false⟩ :=
  (C5_image_wait imgCompleteInfo).1 rfl

/-- C6: `loadVideo` resolves immediately (registering nothing) when the
video's readyState is at least 2 or its poster is set (non-empty); otherwise
it registers listeners and its future settles with the video's first
loadeddata/error event — resolving on loadeddata, rejecting on error. -/
theorem C6_video_wait (v : ElemInfo) :
    ((2 ≤ v.videoReadyState ∨ v.videoPoster ≠ "") →
        loadVideo v = ⟨⟨some (0, true)⟩, false⟩) ∧
    (v.videoReadyState < 2 → v.videoPoster = "" →
        (loadVideo v).registeredListeners = true ∧
        (loadVideo v).future.settles = v.videoEvent ∧
        (∀ t, v.videoEvent = some (t, true) →
          (loadVideo v).future.settles = some (t, true)) ∧
        (∀ t, v.videoEvent = some (t, false) →
          (loadVideo v).future.settles = some (t, false))) := by
  constructor
  · intro h
    rcases h with h | h
    · simp [loadVideo, h]
    · simp [loadVideo, h]
  · intro h1 h2
    have hlt : ¬ (2 ≤ v.videoReadyState) := by omega
    simp [loadVideo, hlt, h2]

theorem C6_video_wait_witness :
    loadVideo videoReadyInfo = ⟨⟨some (0, true)⟩, false⟩ :=
  (C6_video_wait videoReadyInfo).1 (Or.inl (by decide))

theorem mapGet_cons (k' : String) (v : FontFace) (m : List (String × FontFace)) (k : String) :
    mapGet ((k', v) :: m) k = if k' == k then some v else mapGet m k :=
  rfl

/-- Looking a key up in the snapshot map built by iterating the font list
with overwriting inserts returns the last matching face. -/
theorem mapGet_build_aux (fonts : List FontFace) (k : String) :
    ∀ m, mapGet (fonts.foldl (fun m f => mapSet m (faceKey f) f) m) k =
      match lastMatch fonts k with
      | some g => some g
      | none => mapGet m k := by
  induction fonts with
  | nil =>
    intro m
    simp [lastMatch]
  | cons f fs ih =>
    intro m
    rw [List.foldl_cons, ih (mapSet m (faceKey f) f)]
    show (match lastMatch fs k with
      | some g => some g
      | none => mapGet (mapSet m (faceKey f) f) k) = _
    rw [lastMatch]
    cases lastMatch fs k with
    | some g => rfl
    | none =>
      show mapGet ((faceKey f, f) :: m) k =
        (match if faceKey f == k then some f else none with
          | some g => some g
          | none => mapGet m k)
      rw [mapGet_cons]
      by_cases h : (faceKey f == k) = true
      · rw [if_pos h, if_pos h]
      · rw [if_neg h, if_neg h]

/-- C7: `loadFonts` against the snapshot map for one aggregation pass
computes the span's effective family/style/weight key, and returns the
readiness future of the (last-enumerated) loaded face under that key when
one exists, and the process-wide all-fonts-ready future otherwise. -/
theorem C7_font_wait_lookup (span : ElemInfo) (fonts : List FontFace) (ready : Future) :
    loadFonts span (buildLoadedFonts fonts) ready =
      match lastMatch fonts (fontKeyOf span) with
      | some f => f.loaded
      | none => ready := by
  unfold loadFonts buildLoadedFonts
  rw [mapGet_build_aux fonts (fontKeyOf span) []]
  cases lastMatch fonts (fontKeyOf span) with
  | some g => rfl
  | none => rfl

theorem string_length_eq_zero (s : String) : s.length = 0 ↔ s = "" := by
  constructor
  · intro h
    cases s with
    | mk data =>
      have hd : data = [] := List.length_eq_zero.mp h
      subst hd
      rfl
  · intro h
    rw [h]
    rfl

/-- C8: `hasTextContent` holds exactly when the element's flattened text,
trimmed, is non-empty; `hasDependencies` holds exactly when the element has
text content, an image descendant, or a video descendant.  (Both are pure
Lean functions of the element, side-effect-free by construction.) -/
theorem C8_readiness_predicates (e : Elem) :
    (hasTextContent e = true ↔ jsTrim e.textContent ≠ "") ∧
    (hasDependencies e = true ↔
      (hasTextContent e = true ∨ getElementsByTagName e "img" ≠ [] ∨
        getElementsByTagName e "video" ≠ [])) := by
  constructor
  · unfold hasTextContent
    rw [bne_iff_ne]
    exact not_congr (string_length_eq_zero _)
  · unfold hasDependencies
    simp only [Bool.or_eq_true, decide_eq_true_eq, List.length_pos]
    tauto

theorem C8_readiness_predicates_witness :
    hasTextContent exTextOnly = true ∧ jsTrim (Elem.textContent exTextOnly) ≠ "" :=
  ⟨by decide, (C8_readiness_predicates exTextOnly).1.mp (by decide)⟩

/-- C9: an animated element with no img, video, or span descendants but with
trimmed-non-empty text has `hasDependencies`, yet its Join Set is empty, so
the aggregate future resolves immediately and the element transitions to
running at time 0 without waiting on any font. -/
theorem C9_text_outside_spans_runs (env : Env) (e : Elem)
    (h1 : isAnimated e = true)
    (himg : getElementsByTagName e "img" = [])
    (hvid : getElementsByTagName e "video" = [])
    (hspan : getElementsByTagName e "span" = [])
    (htext : hasTextContent e = true) :
    hasDependencies e = true ∧ elementWaits env e = [] ∧
      startAnimationForElement env e = .runs [] 0 := by
  have hdep : hasDependencies e = true := by
    simp [hasDependencies, htext]
  have hw : elementWaits env e = [] := by
    simp [elementWaits, himg, hvid, hspan]
  have hload : (loadElementResources env e).settles = some (0, true) := by
    unfold loadElementResources
    rw [hw]
    rfl
  refine ⟨hdep, hw, ?_⟩
  rw [dispatch_of_deps env e h1 hdep, hload]

theorem C9_text_outside_spans_runs_witness :
    hasDependencies exTextOnly = true ∧ elementWaits envEmpty exTextOnly = [] ∧
      startAnimationForElement envEmpty exTextOnly = .runs [] 0 :=
  C9_text_outside_spans_runs envEmpty exTextOnly (by decide) (by decide) (by decide)
    (by decide) (by decide)

/-- C10: a font failure blocks animation like a media failure: on an
animated element with dependencies, a span descendant whose font key is
mapped by the pass's snapshot to a face whose readiness future rejects makes
the Join Set reject and leaves the dispatcher in `failed` — the element
never runs.  And when a span's key is not in the snapshot, the fallback
future is `document.fonts.ready`, which (as the platform guarantees) never
rejects, so an unenumerated font can never reject a Join Set member. -/
theorem C10_font_failure_blocks (env : Env) (e : Elem)
    (hready : ∀ t, env.fontsReady.settles ≠ some (t, false)) :
    (∀ s ∈ getElementsByTagName e "span", ∀ fface t,
        isAnimated e = true → hasDependencies e = true →
        mapGet (buildLoadedFonts env.fonts) (fontKeyOf s.info) = some fface →
        fface.loaded.settles = some (t, false) →
        (∃ tr, tr ≤ t ∧ startAnimationForElement env e = .failed tr) ∧
          ∀ p t', startAnimationForElement env e ≠ .runs p t') ∧
    (∀ s : ElemInfo, mapGet (buildLoadedFonts env.fonts) (fontKeyOf s) = none →
        ∀ t, (loadFonts s (buildLoadedFonts env.fonts) env.fontsReady).settles ≠
          some (t, false)) := by
  constructor
  · intro s hs fface t h1 h2 hget hrej
    have hlf : loadFonts s.info (buildLoadedFonts env.fonts) env.fontsReady =
        fface.loaded := by
      unfold loadFonts
      rw [hget]
    have hmem : loadFonts s.info (buildLoadedFonts env.fonts) env.fontsReady ∈
        elementWaits env e := by
      unfold elementWaits
      exact List.mem_append.mpr (Or.inr (List.mem_map_of_mem _ hs))
    exact dispatch_blocked_of_reject env e _ t h1 h2 hmem (by rw [hlf]; exact hrej)
  · intro s hget t hcon
    unfold loadFonts at hcon
    rw [hget] at hcon
    exact hready t hcon

theorem C10_font_failure_blocks_witness :
    (∃ tr, tr ≤ 3 ∧ startAnimationForElement envArialFail exSpanArial = .failed tr) ∧
      ∀ p t', startAnimationForElement envArialFail exSpanArial ≠ .runs p t' :=
  (C10_font_failure_blocks envArialFail exSpanArial
      (by intro t h; simp [envArialFail] at h)).1
    (.node spanArialInfo []) (by decide) arialFace 3 (by decide) (by decide)
    (by decide) rfl

end Anim
